import Mathlib

/-!
Verification development for the drive-scripts job server.

The definitions below are a shallow embedding of the Python sources:
  - `src/config.py`                         (configuration constants)
  - `src/server/services/sse_service.py`    (StreamService: job registry, event bus, confirmations)
  - `src/server/services/compress_service.py` (compression pipeline)
  - `src/server/services/extract_service.py`  (extraction pipeline)
  - `src/tools/shared/utils.py`             (find_archives, copy_with_progress)

Pure logic is translated into Lean functions; the filesystem side effects of
the pipeline runners are embedded as explicit traces of abstract actions, and
the in-memory registry state of StreamService is embedded as an explicit
record that each operation transforms.
-/

namespace DriveScripts

/-! ## Configuration (src/config.py) -/

/-- Embedding of `Config.archive_exts` (config.py line 45): the set of
extensions .zip, .7z and .rar. -/
def archive_exts : List String := [".zip", ".7z", ".rar"]

/-- Embedding of `Config.max_nested_depth` (config.py line 49): default `5`. -/
def max_nested_depth : Nat := 5

/-- Embedding of `config.temp_dir`: the local scratch directory path.  Its concrete value
is environment dependent; the trace embedding only needs a fixed name. -/
def temp_dir : String := "/content/extract_temp"

/-! ## Events and registry state (src/server/services/sse_service.py) -/

/-- One event as placed on a job's queue by `send_event`: the event type
string and its (serialized) payload. -/
structure Event where
  event : String
  data : String
deriving DecidableEq, Repr

/-- The in-memory state of `StreamService` (sse_service.py lines 9-12):
`jobs` maps a job id to its queued events (the `asyncio.Queue` contents),
`confirmations` maps a job id to its confirmation future (`none` = pending,
`some r` = resolved with `r`), and `ws_connections` maps a job id to the
number of currently attached WebSocket connections. -/
structure StreamState where
  jobs : List (String × List Event)
  confirmations : List (String × Option Bool)
  ws_connections : List (String × Nat)
deriving DecidableEq, Repr

/-- Python dict assignment `d[k] = v` on an association list: replaces the
entry for `k` when present, appends it otherwise. -/
def setEntry {β : Type} (k : String) (v : β) : List (String × β) → List (String × β)
  | [] => [(k, v)]
  | (k', v') :: rest => if k' = k then (k, v) :: rest else (k', v') :: setEntry k v rest

/-- Python `del d[k]` / absence on an association list. -/
def removeEntry {β : Type} (k : String) : List (String × β) → List (String × β)
  | [] => []
  | (k', v') :: rest => if k' = k then rest else (k', v') :: removeEntry k rest

/-- Embedding of `StreamService.create_job` (sse_service.py lines 14-16):
`self.jobs[job_id] = asyncio.Queue()` — installs a fresh empty queue,
unconditionally. -/
def create_job (s : StreamState) (job_id : String) : StreamState :=
  { s with jobs := setEntry job_id [] s.jobs }

/-- Embedding of `StreamService.send_event` (sse_service.py lines 18-33): appends the
event to the job's queue when the job exists; pushes to WebSockets are
transient and leave the registry state unchanged; a missing job is a no-op. -/
def send_event (s : StreamState) (job_id : String) (e : Event) : StreamState :=
  match s.jobs.lookup job_id with
  | some q => { s with jobs := setEntry job_id (q ++ [e]) s.jobs }
  | none => s

/-- Embedding of `StreamService.confirm` (sse_service.py lines 54-58): resolve the job's
pending future with `result`; a missing or already-resolved future is left
untouched. -/
def confirm (s : StreamState) (job_id : String) (result : Bool) : StreamState :=
  match s.confirmations.lookup job_id with
  | some none => { s with confirmations := setEntry job_id (some result) s.confirmations }
  | _ => s

/-- Outcome of entering `StreamService.wait_for_confirmation`: either the
guard returned `False` immediately, or a pending future was installed and
the `confirm_request` event sent, leaving the caller suspended on the
future in the given successor state. -/
inductive WaitStart where
  | immediateDecline
  | pendingAwait (s : StreamState)
deriving DecidableEq, Repr

/-- Embedding of `StreamService.wait_for_confirmation`, entry portion (sse_service.py
lines 35-46): if `job_id` is in neither `jobs` nor `ws_connections` it
returns `False` at once; otherwise it stores a fresh pending future in
`confirmations`, sends the `confirm_request` event, and awaits the future. -/
def wait_for_confirmation_start (s : StreamState) (job_id : String) (data : String) : WaitStart :=
  if (s.jobs.lookup job_id).isNone ∧ (s.ws_connections.lookup job_id).isNone then
    .immediateDecline
  else
    .pendingAwait
      (send_event { s with confirmations := setEntry job_id none s.confirmations }
        job_id ⟨"confirm_request", data⟩)

/-- The `finally` block of `StreamService.handle_ws` (sse_service.py lines
74-78): remove this WebSocket from the job's connection list and delete the
entry when it was the last one.  The `confirmations` map is not touched. -/
def detach_ws (s : StreamState) (job_id : String) : StreamState :=
  match s.ws_connections.lookup job_id with
  | some n =>
      if n ≤ 1 then { s with ws_connections := removeEntry job_id s.ws_connections }
      else { s with ws_connections := setEntry job_id (n - 1) s.ws_connections }
  | none => s

/-- The terminal-event test of `StreamService.event_generator`
(sse_service.py line 95): `event["event"] in ["complete", "error", "cancelled"]`. -/
def isTerminalType (t : String) : Bool :=
  t = "complete" || t = "error" || t = "cancelled"

/-- Embedding of `StreamService.event_generator` (sse_service.py lines 91-96), viewed as
the sequence of events it delivers given the sequence the queue will carry:
each event is yielded, and after a terminal event the loop breaks; with an
exhausted queue the generator blocks and yields nothing more. -/
def event_generator : List Event → List Event
  | [] => []
  | e :: rest => if isTerminalType e.event then [e] else e :: event_generator rest

/-! ## Filesystem action traces for the pipeline runners

The runners' effects on the filesystem and event bus are embedded as traces
of abstract actions, produced in the order the Python code performs them.
Environment choices (which call raises, what `os.path.exists` returns, what
each `find_archives` rescan finds) are explicit parameters. -/

/-- One filesystem / event-bus action of a pipeline runner. -/
inductive FsAction where
  | rmtree (p : String)
  | makedirs (p : String)
  | copyFile (src dst : String)
  | compressFile (src outDir : String)
  | verifyFile (p : String)
  | getsize (p : String)
  | existsCheck (p : String)
  | removeFile (p : String)
  | extractArchive (archive : String)
  | uploadTree (src dst : String)
  | emit (eventType : String)
deriving DecidableEq, Repr

/-- The step of `CompressService.run_compression`'s per-item `try` body at
which the environment makes an exception occur. -/
inductive CompressFail where
  | atCopy
  | atCompress
  | atVerify
  | atUpload
deriving DecidableEq, Repr

/-- The `except` block of the per-item loop of
`CompressService.run_compression` (compress_service.py lines 210-216):
log the failure, then remove the destination artifact when it exists. -/
def compress_except_handler (drive_output : String) (dest_exists : Bool) : List FsAction :=
  [.emit "log", .existsCheck drive_output] ++
  (if dest_exists then [.removeFile drive_output] else [])

/-- The per-item `try` body of `CompressService.run_compression`
(compress_service.py lines 54-208), given as (actions performed, whether an
exception was raised, whether the body ran `continue` on a declined
confirmation).  Mirrors the source: copy to local (line 80), compress
(line 103), optional confirmation (lines 111-134), optional verification
(lines 137-168), upload (line 195), then the source-existence check and
deletion (lines 198-199). -/
def compress_item_try (src local_input local_output drive_output : String)
    (ask_confirm verify_after keep src_exists : Bool) (fail : Option CompressFail) :
    List FsAction × Bool × Bool :=
  let copyActs := [.emit "log", .copyFile src local_input]
  if fail = some .atCopy then (copyActs, true, false)
  else
    let compActs := copyActs ++ [.emit "log", .compressFile local_input temp_dir]
    if fail = some .atCompress then (compActs, true, false)
    else
      let confirmActs := compActs ++
        (if ask_confirm then [.getsize local_input, .getsize local_output, .emit "confirm_request"]
         else [])
      if ask_confirm && !keep then (confirmActs ++ [.emit "log"], false, true)
      else
        let verifyActs := confirmActs ++
          (if verify_after then [.emit "log", .verifyFile local_output] else [])
        if verify_after ∧ fail = some .atVerify then (verifyActs, true, false)
        else
          let uploadActs := verifyActs ++ [.emit "log", .copyFile local_output drive_output]
          if fail = some .atUpload then (uploadActs, true, false)
          else
            (uploadActs ++ [.existsCheck src] ++
              (if src_exists then [.removeFile src] else []) ++ [.emit "log"],
             false, false)

/-- One full iteration of the per-item loop of
`CompressService.run_compression` (compress_service.py lines 44-225):
scratch pre-clean and recreation (lines 51-52), the `try` body, the
`except` handler when it raised, the `finally` scratch removal (line 219),
and the per-item stats event (line 221) — which a `continue` from a
declined confirmation skips. -/
def compress_item_trace (src local_input local_output drive_output : String)
    (ask_confirm verify_after keep : Bool) (fail : Option CompressFail)
    (src_exists dest_exists : Bool) : List FsAction :=
  let bodyRes := compress_item_try src local_input local_output drive_output
    ask_confirm verify_after keep src_exists fail
  [.rmtree temp_dir, .makedirs temp_dir] ++ bodyRes.1 ++
  (if bodyRes.2.1 then compress_except_handler drive_output dest_exists else []) ++
  [.rmtree temp_dir] ++
  (if bodyRes.2.2 then [] else [.emit "progress"])

/-- The nested-expansion loop of `ExtractService.run_extraction`
(extract_service.py lines 116-142): `found rnd` is what the round-`rnd`
rescan `find_archives(out_dir)` returns; each round with a nonempty scan
logs, extracts each found archive in place and deletes it, logs again, and
continues; an empty scan breaks.  `fuel` is the number of loop iterations
remaining out of `range(1, max_nested_depth + 1)`. -/
def nested_rounds_trace (found : Nat → List String) : Nat → Nat → List FsAction
  | 0, _ => []
  | fuel + 1, rnd =>
    if (found rnd).isEmpty then []
    else
      [.emit "log"] ++ ((found rnd).flatMap fun f => [.extractArchive f, .removeFile f]) ++
      [.emit "log"] ++ nested_rounds_trace found fuel (rnd + 1)

/-- The number of rounds the nested-expansion loop actually runs (rounds
whose rescan found at least one archive), with the same recursion
structure as `nested_rounds_trace`. -/
def nested_rounds_count (found : Nat → List String) : Nat → Nat → Nat
  | 0, _ => 0
  | fuel + 1, rnd =>
    if (found rnd).isEmpty then 0
    else nested_rounds_count found fuel (rnd + 1) + 1

/-- The step of `ExtractService.run_extraction` at which the environment
makes an exception occur. -/
inductive ExtractFail where
  | atCopy
  | atExtract
  | atUpload
deriving DecidableEq, Repr

/-- The action trace of `ExtractService.run_extraction` (extract_service.py
lines 41-172): scratch pre-clean and output-dir creation (lines 53-54),
the local copy for non-zip archives (lines 72-92), main extraction
(lines 96-113), the nested-expansion loop (lines 116-142), upload
(lines 145-160), then source deletion, scratch removal and the `complete`
event (lines 163-169).  Any exception lands in the `except` block
(lines 171-172), which only emits the `error` event. -/
def run_extraction_trace (archive_path local_archive out_dir drive_dest : String)
    (is_zip : Bool) (found : Nat → List String) (fail : Option ExtractFail)
    (archive_exists : Bool) : List FsAction :=
  let pre := [.rmtree temp_dir, .makedirs out_dir]
  let copyPart := if is_zip then [] else [.emit "log", .copyFile archive_path local_archive]
  if ¬is_zip ∧ fail = some .atCopy then pre ++ copyPart ++ [.emit "error"]
  else
    let copyDone := pre ++ copyPart ++ (if is_zip then [] else [.emit "log"])
    let extractPart := copyDone ++
      [.emit "log", .extractArchive (if is_zip then archive_path else local_archive)]
    if fail = some .atExtract then extractPart ++ [.emit "error"]
    else
      let nestedPart := extractPart ++ [.emit "log"] ++
        nested_rounds_trace found max_nested_depth 1
      let uploadPart := nestedPart ++ [.emit "log", .uploadTree out_dir drive_dest]
      if fail = some .atUpload then uploadPart ++ [.emit "error"]
      else
        uploadPart ++ [.emit "log", .existsCheck archive_path] ++
        (if archive_exists then [.removeFile archive_path] else []) ++
        [.rmtree temp_dir, .emit "complete"]

/-! ## External tool progress adapters (compress_service.py, extract_service.py) -/

/-- One emission of the NSP shared-progress-cell poll loop
(`CompressService._compress_nsp`, compress_service.py lines 295-299): the
cell holds `[read, written, total, phase]` and the pair `(read, total)` is
passed to `on_progress` unmodified. -/
def nsp_poll_emit (read _written total : Nat) (_phase : String) : Nat × Nat :=
  (read, total)

/-- The total estimate of the XCI output-size poll
(`CompressService._compress_xci`, compress_service.py line 336):
`int(input_size * 0.7)`, i.e. 70% of the input size truncated to an
integer. -/
def xci_total_estimate (input_size : Nat) : Nat :=
  input_size * 7 / 10

/-- One emission of the XCI output-size poll loop
(`CompressService._compress_xci`, compress_service.py lines 333-337):
`on_progress(curr, est)` where `curr` is the current size of the growing
output file and `est` is the precomputed total estimate; the pair is passed
unmodified. -/
def xci_poll_emit (curr est : Nat) : Nat × Nat :=
  (curr, est)

/-- The per-poll completed-bytes computation of the 7z branch of
`ExtractService._extract` (extract_service.py lines 200-207): for every
listed member with expected uncompressed size `sz` whose output file
currently exists with size `cur`, contribute `min cur sz`; members whose
output does not exist yet contribute nothing. -/
def sevenzip_poll_done (files : List (Option Nat × Nat)) : Nat :=
  (files.map fun fc =>
    match fc.1 with
    | some cur => min cur fc.2
    | none => 0).sum

/-! ## Byte-copy primitive and aggregate upload progress
(utils.py `copy_with_progress`, extract_service.py `_upload_all`) -/

/-- Chunk size of `copy_with_progress` (utils.py line 270): 8 MiB. -/
def chunk_size : Nat := 8 * 1024 * 1024

/-- The read/write loop of `copy_with_progress` (utils.py lines 269-274):
each iteration reads up to `chunk` bytes of the `total - done` remaining,
and after writing reports the new cumulative `done`; an empty read ends
the loop.  `fuel` bounds the iterations; since every productive iteration
advances `done` by at least one byte, `fuel = total` always suffices. -/
def copyLoop (chunk total : Nat) : Nat → Nat → List Nat
  | 0, _ => []
  | fuel + 1, done =>
    let r := min chunk (total - done)
    if r = 0 then []
    else (done + r) :: copyLoop chunk total fuel (done + r)

/-- The cumulative `done` values passed to `on_prog` by
`copy_with_progress` for a source file of `total` bytes (the second
component of every report is the constant `total`). -/
def copy_reports_chunked (chunk total : Nat) : List Nat :=
  copyLoop chunk total total 0

/-- Reports of `copy_with_progress` with the source's 8 MiB chunk size. -/
def copy_reports (total : Nat) : List Nat :=
  copy_reports_chunked chunk_size total

/-- The per-file loop of `ExtractService._upload_all` (extract_service.py
lines 241-250), viewed through the cumulative `done` values handed to
`on_prog` (every report's second component is the precomputed grand
total): for each file, report the running offset, then the per-chunk
reports of `copy_with_progress` shifted by that offset
(`on_prog(_d + d, total, _f)` with `_d = done_start`), then advance the
offset by the file's size. -/
def uploadLoop (chunk : Nat) : List Nat → Nat → List Nat
  | [], _ => []
  | sz :: rest, done =>
    done :: ((copy_reports_chunked chunk sz).map fun d => done + d) ++
      uploadLoop chunk rest (done + sz)

/-- All `done` values reported by `ExtractService._upload_all` for a batch
of files with the given sizes, including the final `on_prog(total, total, "")`
(extract_service.py line 251). -/
def upload_all_reports (sizes : List Nat) : List Nat :=
  uploadLoop chunk_size sizes 0 ++ [sizes.sum]

/-! ## Archive traversal (utils.py `find_archives`) -/

mutual
/-- A directory: its regular files (by name) and its subdirectories. -/
inductive FsTree where
  | mk (files : List String) (subdirs : FsForest)
/-- A list of named subdirectories. -/
inductive FsForest where
  | nil
  | cons (name : String) (tree : FsTree) (rest : FsForest)
end

mutual
/-- Embedding of `os.walk(root)` top-down: yield `(dirpath, filenames)` for the root,
then recurse depth-first into each subdirectory. -/
def walk (root : String) : FsTree → List (String × List String)
  | .mk files subdirs => (root, files) :: walkForest root subdirs
/-- Recursion of `os.walk` over a directory's subdirectories. -/
def walkForest (root : String) : FsForest → List (String × List String)
  | .nil => []
  | .cons name t rest => walk (root ++ "/" ++ name) t ++ walkForest root rest
end

/-- Index of the last occurrence of `c` in `cs`, if any. -/
def lastIdxOf (c : Char) (cs : List Char) : Option Nat :=
  match cs.reverse.findIdx? (· = c) with
  | none => none
  | some j => some (cs.length - 1 - j)

/-- The extension part of Python `os.path.splitext` applied to a bare file
name (no directory separator): the suffix starting at the last dot,
provided some character before that dot is not itself a dot — leading dots
are skipped, so `splitext(".zip")` yields no extension. -/
def splitext_ext (f : String) : String :=
  let cs := f.toList
  match lastIdxOf '.' cs with
  | none => ""
  | some i => if (cs.take i).any (fun ch => ch ≠ '.') then (cs.drop i).asString else ""

/-- Python `str.lower()` restricted to the ASCII range the extension sets
use. -/
def py_lower (s : String) : String :=
  (s.toList.map Char.toLower).asString

/-- Embedding of `find_archives` (utils.py lines 109-126) with the default
`config.archive_exts`: walk the tree under `root` and collect the joined
path of every file whose lowercased `splitext` extension is in
`archive_exts`; `os.walk` never lists directories among `files`. -/
def find_archives (root : String) (t : FsTree) : List String :=
  (walk root t).flatMap fun rf =>
    (rf.2.filter fun f => archive_exts.contains (py_lower (splitext_ext f))).map
      fun f => rf.1 ++ "/" ++ f

/-- Specification-side description (spec.md §4.3): the regular files under
the root at any depth, as (containing-directory path, file name) pairs. -/
def allFiles (root : String) (t : FsTree) : List (String × String) :=
  (walk root t).flatMap fun rf => rf.2.map fun f => (rf.1, f)

/-! ## Helper lemmas -/

theorem lookup_setEntry_self {β : Type} (k : String) (v : β) :
    ∀ l : List (String × β), (setEntry k v l).lookup k = some v := by
  intro l
  induction l with
  | nil => simp [setEntry, List.lookup]
  | cons hd tl ih =>
    obtain ⟨k', v'⟩ := hd
    by_cases h : k' = k
    · simp [setEntry, h, List.lookup]
    · have hbe : (k == k') = false := beq_eq_false_iff_ne.mpr (Ne.symm h)
      simp [setEntry, h, List.lookup, hbe, ih]

theorem lookup_setEntry_ne {β : Type} (k k' : String) (v : β) (h : k' ≠ k) :
    ∀ l : List (String × β), (setEntry k v l).lookup k' = l.lookup k' := by
  intro l
  have hbe : (k' == k) = false := beq_eq_false_iff_ne.mpr h
  induction l with
  | nil => simp [setEntry, List.lookup, hbe]
  | cons hd tl ih =>
    obtain ⟨k₀, v₀⟩ := hd
    by_cases h₀ : k₀ = k
    · subst h₀
      simp [setEntry, List.lookup, hbe]
    · simp [setEntry, h₀, List.lookup, ih]

/-! ## Claim theorems -/

/-- C3 counterexample.  The claim says `create_job(id)` fails with
DuplicateJob when `id` is already live and never silently replaces a live
job's queue.  On a registry where job `"j"` is live with one queued event,
`create_job` succeeds (its translation is a total state transformer — the
source method is a bare dict assignment with no duplicate check) and the
live queue is silently replaced by a fresh empty one. -/
theorem create_job_replaces_live_queue :
    (StreamState.mk [("j", [⟨"log", "x"⟩])] [] []).jobs.lookup "j" =
      some [⟨"log", "x"⟩] ∧
    (create_job (StreamState.mk [("j", [⟨"log", "x"⟩])] [] []) "j").jobs.lookup "j" =
      some [] := by
  constructor <;> rfl

/-- C3 amended claim: `create_job(id)` always succeeds, unconditionally
installing a fresh empty queue for `id`; when `id` is already live its
queue is silently replaced.  Queues of other jobs and all other registry
state are untouched, and no DuplicateJob failure exists anywhere in the
operation (its type is a total function on registry states). -/
theorem create_job_total_fresh_queue (s : StreamState) (id : String) :
    (create_job s id).jobs.lookup id = some [] ∧
    (∀ k : String, k ≠ id → (create_job s id).jobs.lookup k = s.jobs.lookup k) ∧
    (create_job s id).confirmations = s.confirmations ∧
    (create_job s id).ws_connections = s.ws_connections := by
  refine ⟨lookup_setEntry_self id [] s.jobs, fun k hk => ?_, rfl, rfl⟩
  exact lookup_setEntry_ne id k [] hk s.jobs

/-- Witness for `create_job_total_fresh_queue` at a concrete registry. -/
theorem create_job_total_fresh_queue_witness :
    (create_job (StreamState.mk [("a", [⟨"log", "y"⟩])] [] []) "b").jobs.lookup "b" =
      some [] ∧
    (create_job (StreamState.mk [("a", [⟨"log", "y"⟩])] [] []) "b").jobs.lookup "a" =
      some [⟨"log", "y"⟩] := by
  have h := create_job_total_fresh_queue (StreamState.mk [("a", [⟨"log", "y"⟩])] [] []) "b"
  refine ⟨h.1, ?_⟩
  rw [h.2.1 "a" (by decide)]
  rfl

/-- C2 counterexample.  The claim says detaching the last live transport
for a job forces any pending confirmation for that job to resolve to
declined.  On a registry where job `"j"` has a pending confirmation and
exactly one WebSocket, running the `handle_ws` detach cleanup removes the
last WebSocket entry but leaves the confirmation pending (`some none`),
not resolved to declined (`some (some false)`): the source's `finally`
block never touches `confirmations`, so the Runner keeps waiting. -/
theorem detach_last_transport_leaves_confirmation_pending :
    (detach_ws (StreamState.mk [("j", [])] [("j", none)] [("j", 1)]) "j").ws_connections.lookup "j" =
      none ∧
    (detach_ws (StreamState.mk [("j", [])] [("j", none)] [("j", 1)]) "j").confirmations.lookup "j" =
      some none := by
  constructor <;> rfl

/-- C2 amended claim: `wait_for_confirmation` resolves immediately to
declined when the job id has neither an SSE queue entry nor any attached
WebSocket; but detaching the last live transport does not resolve a
pending confirmation — the detach cleanup leaves the `confirmations` map
exactly as it was, so a pending confirmation stays pending. -/
theorem no_transport_decline_and_detach_preserves_confirmations
    (s : StreamState) (j d : String) :
    ((s.jobs.lookup j).isNone ∧ (s.ws_connections.lookup j).isNone →
      wait_for_confirmation_start s j d = .immediateDecline) ∧
    (detach_ws s j).confirmations = s.confirmations := by
  constructor
  · intro h
    simp only [wait_for_confirmation_start, if_pos h]
  · unfold detach_ws
    cases s.ws_connections.lookup j with
    | none => rfl
    | some n =>
      by_cases hn : n ≤ 1 <;> simp [hn]

/-- Witness for `no_transport_decline_and_detach_preserves_confirmations`
at a concrete registry with no transports at all. -/
theorem no_transport_decline_witness :
    wait_for_confirmation_start (StreamState.mk [] [] []) "j" "payload" =
      .immediateDecline :=
  (no_transport_decline_and_detach_preserves_confirmations
    (StreamState.mk [] [] []) "j" "payload").1 ⟨rfl, rfl⟩

/-- C8: confirmation resolution is idempotent and first-wins.  From a
pending slot, the first `confirm` resolves it to its result; a second
`confirm` with any (possibly different) result changes nothing; and on any
registry whose slot for the job is absent or already resolved, `confirm`
is the identity — a late or duplicate reply is a no-op. -/
theorem resolve_confirmation_first_wins (s : StreamState) (j : String) (r₁ r₂ : Bool)
    (h : s.confirmations.lookup j = some none) :
    (confirm s j r₁).confirmations.lookup j = some (some r₁) ∧
    confirm (confirm s j r₁) j r₂ = confirm s j r₁ ∧
    (∀ t : StreamState, t.confirmations.lookup j ≠ some none → confirm t j r₂ = t) := by
  have hres : (confirm s j r₁).confirmations.lookup j = some (some r₁) := by
    unfold confirm
    rw [h]
    exact lookup_setEntry_self j (some r₁) s.confirmations
  have hnoop : ∀ t : StreamState, t.confirmations.lookup j ≠ some none → confirm t j r₂ = t := by
    intro t ht
    unfold confirm
    cases hc : t.confirmations.lookup j with
    | none => rfl
    | some o =>
      cases o with
      | none => exact absurd hc ht
      | some r => rfl
  exact ⟨hres, hnoop (confirm s j r₁) (by rw [hres]; intro hcon; cases hcon), hnoop⟩

/-- Witness for `resolve_confirmation_first_wins`: a concrete pending slot,
resolved `true` first, then a conflicting `false` reply that is ignored. -/
theorem resolve_confirmation_first_wins_witness :
    (confirm (StreamState.mk [] [("j", none)] []) "j" true).confirmations.lookup "j" =
      some (some true) ∧
    confirm (confirm (StreamState.mk [] [("j", none)] []) "j" true) "j" false =
      confirm (StreamState.mk [] [("j", none)] []) "j" true := by
  have h := resolve_confirmation_first_wins (StreamState.mk [] [("j", none)] [])
    "j" true false rfl
  exact ⟨h.1, h.2.1⟩

/-- C4: for every job whose queue carries some terminal event, the event
sequence the generator delivers contains exactly one event of terminal
type (`complete`, `error` or `cancelled`) and that event is the last one
delivered — no event follows it. -/
theorem event_stream_single_terminal (q : List Event)
    (h : ∃ e ∈ q, isTerminalType e.event = true) :
    (event_generator q).countP (fun e => isTerminalType e.event) = 1 ∧
    ∃ e, (event_generator q).getLast? = some e ∧ isTerminalType e.event = true := by
  induction q with
  | nil => simp at h
  | cons e rest ih =>
    by_cases ht : isTerminalType e.event = true
    · refine ⟨?_, e, ?_, ht⟩
      · simp [event_generator, ht, List.countP_cons, List.countP_nil]
      · simp [event_generator, ht]
    · have h' : ∃ x ∈ rest, isTerminalType x.event = true := by
        rcases h with ⟨x, hx, hxt⟩
        rcases List.mem_cons.mp hx with rfl | hxr
        · exact absurd hxt ht
        · exact ⟨x, hxr, hxt⟩
      obtain ⟨hcount, e', hlast, he'⟩ := ih h'
      refine ⟨?_, e', ?_, he'⟩
      · simp [event_generator, ht, List.countP_cons, hcount]
      · cases hg : event_generator rest with
        | nil => rw [hg] at hlast; simp at hlast
        | cons b l' =>
          rw [hg] at hlast
          simp [event_generator, ht, hg, List.getLast?_cons_cons, hlast]

/-- Witness for `event_stream_single_terminal`: a queue carrying a progress
event followed by `complete`. -/
theorem event_stream_single_terminal_witness :
    (event_generator [⟨"progress", "p"⟩, ⟨"complete", "c"⟩]).countP
        (fun e => isTerminalType e.event) = 1 ∧
    ∃ e, (event_generator [⟨"progress", "p"⟩, ⟨"complete", "c"⟩]).getLast? = some e ∧
      isTerminalType e.event = true :=
  event_stream_single_terminal [⟨"progress", "p"⟩, ⟨"complete", "c"⟩]
    ⟨⟨"complete", "c"⟩, by decide, by decide⟩

/-- The nested-expansion round counter never exceeds the remaining fuel. -/
theorem nested_rounds_count_le (found : Nat → List String) :
    ∀ fuel rnd, nested_rounds_count found fuel rnd ≤ fuel := by
  intro fuel
  induction fuel with
  | zero => intro rnd; simp [nested_rounds_count]
  | succ n ih =>
    intro rnd
    by_cases h : (found rnd).isEmpty
    · simp [nested_rounds_count, h]
    · simp only [nested_rounds_count, h, if_false]
      exact Nat.succ_le_succ (ih (rnd + 1))

/-- C5: the nested-expansion loop runs at most `max_nested_depth` rounds;
a round whose rescan finds no archives stops the loop with zero further
rounds; with the default bound 5 and an environment whose every rescan
finds one more archive, exactly 5 rounds run; and on that environment the
extraction job's trace still ends with the `complete` event — the bound
being reached is silent, no `error` event is emitted. -/
theorem nested_expansion_bounded (found : Nat → List String) (fuel rnd : Nat)
    (h : found rnd = []) :
    nested_rounds_count found max_nested_depth 1 ≤ max_nested_depth ∧
    nested_rounds_count found (fuel + 1) rnd = 0 ∧
    nested_rounds_count (fun _ => ["inner.zip"]) max_nested_depth 1 = 5 ∧
    (run_extraction_trace "a.zip" "la" "out" "dest" true (fun _ => ["inner.zip"])
        none true).getLast? = some (.emit "complete") ∧
    FsAction.emit "error" ∉
      run_extraction_trace "a.zip" "la" "out" "dest" true (fun _ => ["inner.zip"])
        none true := by
  refine ⟨nested_rounds_count_le found max_nested_depth 1, ?_, by decide, by decide,
    by decide⟩
  simp [nested_rounds_count, h]

/-- Witness for `nested_expansion_bounded`: an environment whose first
rescan finds nothing, alongside the always-one-more environment. -/
theorem nested_expansion_bounded_witness :
    nested_rounds_count (fun _ => ([] : List String)) (4 + 1) 1 = 0 ∧
    nested_rounds_count (fun _ => ["inner.zip"]) max_nested_depth 1 = 5 :=
  ⟨(nested_expansion_bounded (fun _ => []) 4 1 rfl).2.1,
   (nested_expansion_bounded (fun _ => []) 4 1 rfl).2.2.1⟩

/-- C1 counterexample.  The claim says the source file is only deleted
after the destination artifact's existence and byte size have been
verified against the local copy.  On the success path of a concrete
compress item, the trace contains the source deletion but contains no
existence check and no size query of the destination artifact anywhere —
there is no verification step at all between the upload copy and the
source removal, so a truncated upload would not prevent the deletion. -/
theorem compress_deletes_source_without_destination_check :
    FsAction.removeFile "src.nsp" ∈
      compress_item_trace "src.nsp" "li" "lo" "drv.nsz" false false true none true true ∧
    FsAction.existsCheck "drv.nsz" ∉
      compress_item_trace "src.nsp" "li" "lo" "drv.nsz" false false true none true true ∧
    FsAction.getsize "drv.nsz" ∉
      compress_item_trace "src.nsp" "li" "lo" "drv.nsz" false false true none true true := by
  decide

/-- C1 amended: on every success path of a compress item the actions after
the upload copy are exactly the source-existence check, the conditional
source removal, the OK log, the scratch removal and the stats event; the
destination artifact's existence and size are never inspected, so upload
finalization and source deletion are guarded only by the upload copy
returning without an exception. -/
theorem compress_upload_finalize_unverified (src li lo d : String)
    (ac va se de : Bool) (h : d ≠ src ∧ d ≠ li ∧ d ≠ lo) :
    compress_item_trace src li lo d ac va true none se de =
      [.rmtree temp_dir, .makedirs temp_dir, .emit "log", .copyFile src li,
       .emit "log", .compressFile li temp_dir] ++
      (if ac then [.getsize li, .getsize lo, .emit "confirm_request"] else []) ++
      (if va then [.emit "log", .verifyFile lo] else []) ++
      [.emit "log", .copyFile lo d, .existsCheck src] ++
      (if se then [.removeFile src] else []) ++
      [.emit "log", .rmtree temp_dir, .emit "progress"] ∧
    FsAction.existsCheck d ∉ compress_item_trace src li lo d ac va true none se de ∧
    FsAction.getsize d ∉ compress_item_trace src li lo d ac va true none se de := by
  obtain ⟨h₁, h₂, h₃⟩ := h
  refine ⟨?_, ?_, ?_⟩ <;>
    cases ac <;> cases va <;> cases se <;>
      simp [compress_item_trace, compress_item_try, temp_dir, h₁, h₂, h₃]

/-- Witness for `compress_upload_finalize_unverified` at concrete names. -/
theorem compress_upload_finalize_unverified_witness :
    FsAction.existsCheck "drv.xcz" ∉
      compress_item_trace "src.xci" "li" "lo" "drv.xcz" true true true none true false :=
  (compress_upload_finalize_unverified "src.xci" "li" "lo" "drv.xcz" true true true false
    (by refine ⟨?_, ?_, ?_⟩ <;> decide)).2.1

/-- C6 counterexample.  The claim says every Runner exit path removes the
scratch directory and any partially written destination artifact.  On an
extraction job whose upload raises, everything after the upload action is
the single `error` event: the only scratch removal in the whole trace is
the pre-clean at the very start, and no file is ever removed — the scratch
directory and any partially copied destination files are left behind. -/
theorem extract_failure_path_skips_cleanup :
    (run_extraction_trace "arc.zip" "larc" "out" "dest" true (fun _ => [])
        (some .atUpload) true).dropWhile
        (fun a => a != FsAction.uploadTree "out" "dest") =
      [FsAction.uploadTree "out" "dest", FsAction.emit "error"] ∧
    (run_extraction_trace "arc.zip" "larc" "out" "dest" true (fun _ => [])
        (some .atUpload) true).count (FsAction.rmtree temp_dir) = 1 ∧
    (run_extraction_trace "arc.zip" "larc" "out" "dest" true (fun _ => [])
        (some .atUpload) true).head? = some (FsAction.rmtree temp_dir) ∧
    (run_extraction_trace "arc.zip" "larc" "out" "dest" true (fun _ => [])
        (some .atUpload) true).getLast? = some (FsAction.emit "error") ∧
    (run_extraction_trace "arc.zip" "larc" "out" "dest" true (fun _ => [])
        (some .atUpload) true).all (fun a => !a matches FsAction.removeFile _) = true := by
  decide

/-- C6 amended: the compress Runner does clean up on its per-item failure
path — the failing item's trace ends with the FAIL log, the destination
existence check, the destination removal when it exists, the `finally`
scratch removal and the stats event — and the extract Runner's success
path ends with scratch removal before `complete`; but the extract Runner's
whole-job failure path performs no cleanup: everything after the failing
upload is the single `error` event. -/
theorem runner_cleanup_asymmetry (src li lo d la o dd : String)
    (ac va ke se ae : Bool) (found : Nat → List String) (de : Bool)
    (hde : de = true) :
    compress_item_trace src li lo d ac va ke (some .atCopy) se de =
      [.rmtree temp_dir, .makedirs temp_dir, .emit "log", .copyFile src li] ++
        compress_except_handler d de ++ [.rmtree temp_dir, .emit "progress"] ∧
    FsAction.removeFile d ∈ compress_item_trace src li lo d ac va ke (some .atCopy) se de ∧
    run_extraction_trace src la o dd true found none ae =
      ([.rmtree temp_dir, .makedirs o, .emit "log", .extractArchive src, .emit "log"] ++
        nested_rounds_trace found max_nested_depth 1 ++
        [.emit "log", .uploadTree o dd, .emit "log", .existsCheck src]) ++
      (if ae then [.removeFile src] else []) ++ [.rmtree temp_dir, .emit "complete"] ∧
    run_extraction_trace src la o dd true found (some .atUpload) ae =
      ([.rmtree temp_dir, .makedirs o, .emit "log", .extractArchive src, .emit "log"] ++
        nested_rounds_trace found max_nested_depth 1 ++ [.emit "log"]) ++
      [.uploadTree o dd, .emit "error"] := by
  subst hde
  refine ⟨?_, ?_, ?_, ?_⟩
  · simp [compress_item_trace, compress_item_try, compress_except_handler]
  · simp [compress_item_trace, compress_item_try, compress_except_handler]
  · simp [run_extraction_trace]
  · simp [run_extraction_trace]

/-- Witness for `runner_cleanup_asymmetry` at concrete names. -/
theorem runner_cleanup_asymmetry_witness :
    FsAction.removeFile "drv.nsz" ∈
      compress_item_trace "s.nsp" "li" "lo" "drv.nsz" false false true (some .atCopy)
        true true :=
  (runner_cleanup_asymmetry "s.nsp" "li" "lo" "drv.nsz" "la" "o" "dd" false false true
    true true (fun _ => []) true rfl).2.1

/-- C7 counterexample.  The claim says every `(current, total)` pair
emitted by the NSP shared-cell adapter and the XCI output-size adapter is
clamped to `min(current, total)`.  A shared-cell poll that momentarily
reads 150 of estimated total 100 is emitted as `(150, 100)` — current
exceeds the total, so no clamping happened; likewise an XCI output file
that has grown to 90 bytes against the 70-byte estimate
(`int(100 * 0.7)`) is emitted as `(90, 70)`. -/
theorem compress_adapters_emit_unclamped :
    nsp_poll_emit 150 0 100 "Compressing" = (150, 100) ∧ 100 < 150 ∧
    xci_poll_emit 90 (xci_total_estimate 100) = (90, 70) ∧ 70 < 90 := by
  decide

/-- C7 amended: only the 7z output-size poll in `ExtractService._extract`
clamps — each member contributes at most its expected size, so its `done`
never exceeds the total; the NSP shared-cell and XCI output-size adapters
in `CompressService` pass polled values through unmodified, so their
emitted current stays within the total exactly when the raw polled value
does. -/
theorem progress_clamp_only_in_extract (files : List (Option Nat × Nat))
    (r w t c est : Nat) (p : String) :
    sevenzip_poll_done files ≤ (files.map Prod.snd).sum ∧
    ((nsp_poll_emit r w t p).1 ≤ (nsp_poll_emit r w t p).2 ↔ r ≤ t) ∧
    ((xci_poll_emit c est).1 ≤ (xci_poll_emit c est).2 ↔ c ≤ est) := by
  refine ⟨?_, Iff.rfl, Iff.rfl⟩
  induction files with
  | nil => simp [sevenzip_poll_done]
  | cons fc rest ih =>
    obtain ⟨cur, sz⟩ := fc
    cases cur with
    | none =>
      simp only [sevenzip_poll_done, List.map_cons, List.sum_cons, Nat.zero_add] at ih ⊢
      exact ih.trans (Nat.le_add_left _ _)
    | some cv =>
      simp only [sevenzip_poll_done, List.map_cons, List.sum_cons] at ih ⊢
      exact Nat.add_le_add (min_le_right cv sz) ih

theorem mem_of_getLast? {α : Type} {l : List α} {x : α} (h : x ∈ l.getLast?) : x ∈ l := by
  obtain ⟨hne, rfl⟩ := List.mem_getLast?_eq_getLast h
  exact List.getLast_mem hne

/-- Every report of the copy loop strictly exceeds the `done` count it
started from and never exceeds the file's total size. -/
theorem copyLoop_mem (chunk total : Nat) :
    ∀ fuel done x, x ∈ copyLoop chunk total fuel done → done < x ∧ x ≤ total := by
  intro fuel
  induction fuel with
  | zero => intro done x hx; simp [copyLoop] at hx
  | succ n ih =>
    intro done x hx
    simp only [copyLoop] at hx
    by_cases hr : min chunk (total - done) = 0
    · rw [if_pos hr] at hx; simp at hx
    · rw [if_neg hr] at hx
      rcases List.mem_cons.mp hx with rfl | hx'
      · omega
      · have := ih _ _ hx'
        omega

/-- The copy loop's reports are non-decreasing from the starting count. -/
theorem copyLoop_chain (chunk total : Nat) :
    ∀ fuel done, List.Chain' (· ≤ ·) (done :: copyLoop chunk total fuel done) := by
  intro fuel
  induction fuel with
  | zero => intro done; simp [copyLoop]
  | succ n ih =>
    intro done
    simp only [copyLoop]
    by_cases hr : min chunk (total - done) = 0
    · rw [if_pos hr]; simp
    · rw [if_neg hr]
      exact List.Chain'.cons (by omega) (ih (done + min chunk (total - done)))

/-- With a positive chunk size and enough fuel, the copy loop's final
report is exactly the file's total size. -/
theorem copyLoop_getLast (chunk : Nat) (hc : 0 < chunk) (total : Nat) :
    ∀ fuel done, done ≤ total → total - done ≤ fuel →
      (done :: copyLoop chunk total fuel done).getLast? = some total := by
  intro fuel
  induction fuel with
  | zero =>
    intro done h1 h2
    have hdt : done = total := by omega
    subst hdt
    simp [copyLoop]
  | succ n ih =>
    intro done h1 h2
    simp only [copyLoop]
    by_cases hr : min chunk (total - done) = 0
    · have hdt : done = total := by omega
      rw [if_pos hr]
      subst hdt
      simp
    · rw [if_neg hr, List.getLast?_cons_cons]
      exact ih (done + min chunk (total - done)) (by omega) (by omega)

/-- The head of the `_upload_all` loop's report list, when a file remains,
is the running offset it was entered with. -/
theorem uploadLoop_head (chunk : Nat) (sizes : List Nat) (done y : Nat)
    (hy : y ∈ (uploadLoop chunk sizes done).head?) : y = done := by
  cases sizes with
  | nil => simp [uploadLoop] at hy
  | cons sz rest =>
    simp [uploadLoop] at hy
    omega

/-- Every report of the `_upload_all` loop lies between the entry offset
and the entry offset plus the remaining batch bytes. -/
theorem uploadLoop_mem (chunk : Nat) :
    ∀ sizes done x, x ∈ uploadLoop chunk sizes done →
      done ≤ x ∧ x ≤ done + sizes.sum := by
  intro sizes
  induction sizes with
  | nil => intro done x hx; simp [uploadLoop] at hx
  | cons sz rest ih =>
    intro done x hx
    simp only [uploadLoop] at hx
    rcases List.mem_cons.mp hx with rfl | hx'
    · simp [List.sum_cons]
    · rcases List.mem_append.mp hx' with hm | hrec
      · rcases List.mem_map.mp hm with ⟨dd, hdd, rfl⟩
        have := copyLoop_mem chunk sz sz 0 dd hdd
        simp only [List.sum_cons]
        omega
      · have := ih (done + sz) x hrec
        simp only [List.sum_cons]
        omega

/-- The `_upload_all` loop's reports are non-decreasing from the entry
offset. -/
theorem uploadLoop_chain (chunk : Nat) :
    ∀ sizes done, List.Chain' (· ≤ ·) (done :: uploadLoop chunk sizes done) := by
  intro sizes
  induction sizes with
  | nil => intro done; simp [uploadLoop]
  | cons sz rest ih =>
    intro done
    simp only [uploadLoop]
    refine List.Chain'.cons (le_refl done) ?_
    show List.Chain' (· ≤ ·)
      ((done :: ((copy_reports_chunked chunk sz).map fun d => done + d)) ++
        uploadLoop chunk rest (done + sz))
    have hmapped : List.Chain' (· ≤ ·)
        (done :: (copy_reports_chunked chunk sz).map fun d => done + d) := by
      have hch := (copyLoop_chain chunk sz sz 0).imp
        (fun a b hab => Nat.add_le_add_left hab done)
      have := (List.chain'_map (fun d => done + d)).mpr hch
      simpa [copy_reports_chunked] using this
    refine hmapped.append ((ih (done + sz)).tail) ?_
    intro x hx y hy
    have hx' := mem_of_getLast? hx
    have hy' := uploadLoop_head chunk rest (done + sz) y hy
    subst hy'
    rcases List.mem_cons.mp hx' with rfl | hxm
    · omega
    · rcases List.mem_map.mp hxm with ⟨dd, hdd, rfl⟩
      have := copyLoop_mem chunk sz sz 0 dd hdd
      omega

/-- Structure of the `_upload_all` loop's reports: the batch is the
concatenation, over file indices `i`, of the entry report at offset
`Σ sizes of files 0..i-1` followed by file `i`'s per-chunk copy reports
shifted by that offset. -/
theorem uploadLoop_decomp (chunk : Nat) :
    ∀ sizes done, uploadLoop chunk sizes done =
      (List.range sizes.length).flatMap fun i =>
        (done + (sizes.take i).sum) ::
          ((copy_reports_chunked chunk (sizes.getD i 0)).map fun dd =>
            done + (sizes.take i).sum + dd) := by
  intro sizes
  induction sizes with
  | nil => intro done; simp [uploadLoop]
  | cons sz rest ih =>
    intro done
    rw [List.length_cons, List.range_succ_eq_map, List.flatMap_cons]
    have hmap : ((List.range rest.length).map Nat.succ).flatMap
        (fun i => (done + ((sz :: rest).take i).sum) ::
          ((copy_reports_chunked chunk ((sz :: rest).getD i 0)).map fun dd =>
            done + ((sz :: rest).take i).sum + dd)) =
        (List.range rest.length).flatMap
          (fun i => ((done + sz) + (rest.take i).sum) ::
            ((copy_reports_chunked chunk (rest.getD i 0)).map fun dd =>
              (done + sz) + (rest.take i).sum + dd)) := by
      rw [List.flatMap_map]
      apply List.flatMap_congr  -- may not exist; fallback below
      intro i _
      simp [List.take_succ_cons, List.sum_cons, Nat.add_assoc]
    simp only [uploadLoop, List.take_zero, List.sum_nil, Nat.add_zero, List.getD_cons_zero,
      hmap, ih (done + sz)]

/-- C9: the aggregate upload's report sequence decomposes per file as
offset plus in-file copy progress, where file `i`'s offset is the sum of
the sizes of files `0..i-1` (every report's second component being the
precomputed grand total); the sequence of reported counters is
monotonically non-decreasing across the whole batch; and the final report
equals the precomputed grand total. -/
theorem upload_progress_aggregate (sizes : List Nat) :
    upload_all_reports sizes =
      ((List.range sizes.length).flatMap fun i =>
        (sizes.take i).sum ::
          ((copy_reports (sizes.getD i 0)).map fun dd => (sizes.take i).sum + dd)) ++
      [sizes.sum] ∧
    List.Chain' (· ≤ ·) (upload_all_reports sizes) ∧
    (upload_all_reports sizes).getLast? = some sizes.sum := by
  refine ⟨?_, ?_, ?_⟩
  · unfold upload_all_reports copy_reports
    rw [uploadLoop_decomp chunk_size sizes 0]
    simp
  · unfold upload_all_reports
    refine List.Chain'.append ((uploadLoop_chain chunk_size sizes 0).tail) (by simp) ?_
    intro x hx y hy
    have hx' := mem_of_getLast? hx
    have hb := uploadLoop_mem chunk_size sizes 0 x hx'
    simp only [List.head?_cons, Option.mem_def, Option.some.injEq] at hy
    omega
  · exact List.getLast?_concat _

/-- C10: `find_archives` returns exactly the regular files under the root,
at any depth, whose `splitext` extension compares case-insensitively into
the configured archive-extension set `{.zip, .7z, .rar}`; upper-cased
names such as `GAME.ZIP` and `a.7Z` are found, and directories are never
included — on the example tree the subdirectory named `dir.zip`
contributes no entry of its own, only its file `b.rar`. -/
theorem find_archives_exact :
    (∀ (root : String) (t : FsTree) (p : String),
      p ∈ find_archives root t ↔
        ∃ rf ∈ allFiles root t,
          archive_exts.contains (py_lower (splitext_ext rf.2)) = true ∧
          p = rf.1 ++ "/" ++ rf.2) ∧
    find_archives "root"
        (.mk ["GAME.ZIP", "readme.txt", "a.7Z"]
          (.cons "dir.zip" (.mk ["b.rar"] .nil) .nil)) =
      ["root/GAME.ZIP", "root/a.7Z", "root/dir.zip/b.rar"] := by
  constructor
  · intro root t p
    simp only [find_archives, allFiles, List.mem_flatMap, List.mem_map, List.mem_filter]
    constructor
    · rintro ⟨rf, hrf, f, ⟨hf, hmatch⟩, rfl⟩
      exact ⟨(rf.1, f), ⟨rf, hrf, f, hf, rfl⟩, hmatch, rfl⟩
    · rintro ⟨pair, ⟨rf, hrf, f, hf, rfl⟩, hmatch, rfl⟩
      exact ⟨rf, hrf, f, ⟨hf, hmatch⟩, rfl⟩
  · decide

end DriveScripts
